import Mathlib

/-!
# Verification of the Celestia DA client (risechain/nitro, das/celestia)

Shallow embedding of the repository's wire codec, namespaced-Merkle-tree
(NMT) engine, confirmation-polling loops and verify orchestration, with
theorems settling the specification claims.

Bytes are modelled as natural numbers (values < 256 where the source
constrains them), byte slices as lists, Go uint64 values as naturals
under explicit 2^64 bounds, and fallible Go functions as Except values.
-/

namespace CelestiaDA

/-! ## Byte-level primitives

Little-endian encoding as written by encoding/binary with LittleEndian
byte order (blob pointer codec, src/unnamed/part_001). -/

/-- Little-endian byte expansion of a natural number to a fixed width. -/
def leBytes : Nat → Nat → List Nat
  | 0, _ => []
  | k + 1, v => v % 256 :: leBytes k (v / 256)

/-- Value of a little-endian byte list. -/
def fromLe (bs : List Nat) : Nat :=
  bs.foldr (fun b acc => b + 256 * acc) 0

theorem leBytes_length (k v : Nat) : (leBytes k v).length = k := by
  induction k generalizing v with
  | zero => rfl
  | succ k ih => simp [leBytes, ih]

theorem fromLe_leBytes (k v : Nat) : fromLe (leBytes k v) = v % 256 ^ k := by
  induction k generalizing v with
  | zero => simp [leBytes, fromLe, Nat.mod_one]
  | succ k ih =>
      have h : (256 : Nat) ^ (k + 1) = 256 * 256 ^ k := by ring
      rw [leBytes, h, Nat.mod_mul]
      show v % 256 + 256 * fromLe (leBytes k (v / 256)) = _
      rw [ih]

theorem fromLe_leBytes_of_lt {k v : Nat} (h : v < 256 ^ k) :
    fromLe (leBytes k v) = v := by
  rw [fromLe_leBytes, Nat.mod_eq_of_lt h]

/-! ## Wire Codec (src/unnamed/part_001: BlobPointer MarshalBinary / UnmarshalBinary)

The reader operations model the Go standard library calls the decoder
makes on a bytes.Reader:
* binary.Read of a uint64 uses io.ReadFull: it consumes exactly 8 bytes
  and fails when fewer than 8 remain;
* readBytes allocates a zero-filled buffer of the declared length and
  issues one bytes.Reader.Read, which fails only when the reader is
  already exhausted and otherwise copies as many bytes as remain,
  leaving the tail of the buffer zero. -/

/-- The verify-era blob pointer record (src/unnamed/part_001 lines 9-18). -/
structure BlobPointerV where
  blockHeight : Nat
  start : Nat
  sharesLength : Nat
  key : Nat
  numLeaves : Nat
  txCommitment : List Nat
  dataRoot : List Nat
  sideNodes : List (List Nat)
deriving DecidableEq

/-- binary.Read of a little-endian uint64 from the remaining bytes. -/
def readU64 (rem : List Nat) : Except String (Nat × List Nat) :=
  if 8 ≤ rem.length then .ok (fromLe (rem.take 8), rem.drop 8)
  else .error "unexpected EOF"

/-- One bytes.Reader.Read into a fresh zero-filled buffer of length n. -/
def readChunk (n : Nat) (rem : List Nat) : Except String (List Nat × List Nat) :=
  if rem.isEmpty then .error "EOF"
  else .ok (rem.take n ++ List.replicate (n - rem.length) 0, rem.drop n)

/-- readBytes (part_001 lines 121-131): length prefix, then one Read. -/
def readBytesM (rem : List Nat) : Except String (List Nat × List Nat) :=
  match readU64 rem with
  | .error e => .error e
  | .ok (n, r1) => readChunk n r1

/-- The side-node loop of UnmarshalBinary (part_001 lines 110-115). -/
def readNodes : Nat → List Nat → Except String (List (List Nat) × List Nat)
  | 0, rem => .ok ([], rem)
  | k + 1, rem =>
    match readBytesM rem with
    | .error e => .error e
    | .ok (nd, r1) =>
      match readNodes k r1 with
      | .error e => .error e
      | .ok (nds, r2) => .ok (nd :: nds, r2)

/-- writeBytes (part_001 lines 64-72): uint64 length prefix then the bytes. -/
def lenPref (b : List Nat) : List Nat := leBytes 8 b.length ++ b

/-- MarshalBinary (part_001 lines 22-61): five little-endian uint64 fields,
length-prefixed commitment and data root, a uint64 side-node count and each
side node length-prefixed. -/
def marshalBinary (p : BlobPointerV) : List Nat :=
  leBytes 8 p.blockHeight ++ leBytes 8 p.start ++ leBytes 8 p.sharesLength ++
  leBytes 8 p.key ++ leBytes 8 p.numLeaves ++
  lenPref p.txCommitment ++ lenPref p.dataRoot ++
  leBytes 8 p.sideNodes.length ++ (p.sideNodes.map lenPref).flatten

/-- UnmarshalBinary (part_001 lines 76-118): the exact read sequence of the
source, propagating the first reader error. -/
def unmarshalBinary (buf : List Nat) : Except String BlobPointerV :=
  (readU64 buf).bind fun a1 =>
  (readU64 a1.2).bind fun a2 =>
  (readU64 a2.2).bind fun a3 =>
  (readU64 a3.2).bind fun a4 =>
  (readU64 a4.2).bind fun a5 =>
  (readBytesM a5.2).bind fun a6 =>
  (readBytesM a6.2).bind fun a7 =>
  (readU64 a7.2).bind fun a8 =>
  (readNodes a8.1 a8.2).bind fun a9 =>
  (.ok ⟨a1.1, a2.1, a3.1, a4.1, a5.1, a6.1, a7.1, a9.1⟩ :
    Except String BlobPointerV)

theorem except_bind_ok {α β ε : Type} (a : α) (f : α → Except ε β) :
    (Except.ok a : Except ε α).bind f = f a := rfl

theorem except_bind_err {α β ε : Type} (e : ε) (f : α → Except ε β) :
    (Except.error e : Except ε α).bind f = .error e := rfl

/-- Well-formedness of a blob pointer: the five numeric fields are Go
uint64 values, the commitment and data root are exactly 32 bytes, and
every side node is exactly 32 bytes. -/
def wellformedPtr (p : BlobPointerV) : Prop :=
  p.blockHeight < 2 ^ 64 ∧ p.start < 2 ^ 64 ∧ p.sharesLength < 2 ^ 64 ∧
  p.key < 2 ^ 64 ∧ p.numLeaves < 2 ^ 64 ∧
  p.txCommitment.length = 32 ∧ p.dataRoot.length = 32 ∧
  p.sideNodes.length < 2 ^ 64 ∧ ∀ n ∈ p.sideNodes, n.length = 32

instance (p : BlobPointerV) : Decidable (wellformedPtr p) := by
  unfold wellformedPtr; infer_instance

theorem take_append_exact {α : Type} {l1 l2 : List α} {n : Nat}
    (h : l1.length = n) : (l1 ++ l2).take n = l1 := by
  subst h
  rw [List.take_append_of_le_length (Nat.le_refl _), List.take_length]

theorem drop_append_exact {α : Type} {l1 l2 : List α} {n : Nat}
    (h : l1.length = n) : (l1 ++ l2).drop n = l2 := by
  subst h
  rw [List.drop_append_of_le_length (Nat.le_refl _), List.drop_length,
    List.nil_append]

theorem readU64_of_le (v : Nat) (hv : v < 2 ^ 64) (rest : List Nat) :
    readU64 (leBytes 8 v ++ rest) = .ok (v, rest) := by
  have hlen : (leBytes 8 v).length = 8 := leBytes_length 8 v
  have h8 : 8 ≤ (leBytes 8 v ++ rest).length := by
    simp [hlen]
  rw [readU64, if_pos h8, take_append_exact hlen, drop_append_exact hlen,
    fromLe_leBytes_of_lt (by norm_num at hv ⊢; omega)]

theorem readChunk_exact (b rest : List Nat) (hne : b ++ rest ≠ []) :
    readChunk b.length (b ++ rest) = .ok (b, rest) := by
  rw [readChunk, if_neg (by simpa [List.isEmpty_iff] using hne)]
  have hz : b.length - (b ++ rest).length = 0 := by
    simp
  rw [take_append_exact rfl, drop_append_exact rfl, hz]
  simp

theorem readBytesM_of_lenPref (b rest : List Nat) (hb : b.length < 2 ^ 64)
    (hne : b ≠ []) :
    readBytesM (lenPref b ++ rest) = .ok (b, rest) := by
  rw [lenPref, List.append_assoc, readBytesM, readU64_of_le b.length hb (b ++ rest)]
  exact readChunk_exact b rest (by simp [hne])

theorem readNodes_of_flatten (nds : List (List Nat)) (rest : List Nat)
    (h32 : ∀ n ∈ nds, n.length = 32) :
    readNodes nds.length ((nds.map lenPref).flatten ++ rest) = .ok (nds, rest) := by
  induction nds with
  | nil => simp [readNodes]
  | cons nd nds ih =>
      have hnd : nd.length = 32 := h32 nd (List.mem_cons_self nd nds)
      have hrest : ∀ n ∈ nds, n.length = 32 := fun n hn => h32 n (List.mem_cons_of_mem nd hn)
      have hne : nd ≠ [] := by
        intro h; rw [h] at hnd; simp at hnd
      simp only [List.length_cons, List.map_cons, List.flatten_cons, List.append_assoc]
      simp only [readNodes,
        readBytesM_of_lenPref nd ((nds.map lenPref).flatten ++ rest)
          (by rw [hnd]; norm_num) hne,
        ih hrest]

/-- C3: for every well-formed blob pointer (uint64 numeric fields, 32-byte
commitment and data root, 32-byte side nodes), decoding the encoding gives
back the pointer, byte-exact on every field. -/
theorem decode_encode_roundtrip (p : BlobPointerV) (hp : wellformedPtr p) :
    unmarshalBinary (marshalBinary p) = .ok p := by
  obtain ⟨h1, h2, h3, h4, h5, h6, h7, h8, h9⟩ := hp
  have htc : p.txCommitment ≠ [] := by
    intro h; rw [h] at h6; simp at h6
  have hdr : p.dataRoot ≠ [] := by
    intro h; rw [h] at h7; simp at h7
  have hnodes : readNodes p.sideNodes.length (p.sideNodes.map lenPref).flatten =
      .ok (p.sideNodes, []) := by
    have := readNodes_of_flatten p.sideNodes [] h9
    simpa using this
  rw [marshalBinary]
  simp only [List.append_assoc]
  simp only [unmarshalBinary, readU64_of_le _ h1, readU64_of_le _ h2,
    readU64_of_le _ h3, readU64_of_le _ h4, readU64_of_le _ h5,
    readBytesM_of_lenPref _ _ (by rw [h6]; norm_num) htc,
    readBytesM_of_lenPref _ _ (by rw [h7]; norm_num) hdr,
    readU64_of_le _ h8, hnodes, except_bind_ok]

/-- Concrete well-formed pointer used by the codec witnesses. -/
def ptrC : BlobPointerV :=
  ⟨3, 1, 4, 1, 5, List.replicate 32 9, List.replicate 32 2, [List.replicate 32 6]⟩

/-- Witness for C3: the round-trip theorem applied at a concrete pointer. -/
theorem decode_encode_roundtrip_witness :
    wellformedPtr ptrC ∧ unmarshalBinary (marshalBinary ptrC) = .ok ptrC :=
  ⟨by decide, decode_encode_roundtrip ptrC (by decide)⟩

theorem readU64_err {rem : List Nat} (h : rem.length < 8) :
    readU64 rem = .error "unexpected EOF" := by
  rw [readU64, if_neg (by omega)]

theorem readU64_ok_drop {rem : List Nat} (h : 8 ≤ rem.length) :
    readU64 rem = .ok (fromLe (rem.take 8), rem.drop 8) := by
  rw [readU64, if_pos h]

/-- C7 (amended): a buffer shorter than the 40-byte fixed section (the five
little-endian uint64 fields) always makes decode return an error: one of the
five leading uint64 reads hits the end of the reader. -/
theorem decode_short_buffer_errors (buf : List Nat) (h : buf.length < 40) :
    ∃ e, unmarshalBinary buf = .error e := by
  refine ⟨"unexpected EOF", ?_⟩
  rcases Nat.lt_or_ge buf.length 8 with h8 | h8
  · simp only [unmarshalBinary, readU64_err h8, except_bind_err]
  rcases Nat.lt_or_ge buf.length 16 with h16 | h16
  · simp only [unmarshalBinary, readU64_ok_drop h8, except_bind_ok,
      readU64_err (show (buf.drop 8).length < 8 by simp; omega), except_bind_err]
  rcases Nat.lt_or_ge buf.length 24 with h24 | h24
  · simp only [unmarshalBinary, readU64_ok_drop h8, except_bind_ok,
      readU64_ok_drop (show 8 ≤ (buf.drop 8).length by simp; omega),
      readU64_err (show ((buf.drop 8).drop 8).length < 8 by simp; omega),
      except_bind_err]
  rcases Nat.lt_or_ge buf.length 32 with h32 | h32
  · simp only [unmarshalBinary, readU64_ok_drop h8, except_bind_ok,
      readU64_ok_drop (show 8 ≤ (buf.drop 8).length by simp; omega),
      readU64_ok_drop (show 8 ≤ ((buf.drop 8).drop 8).length by simp; omega),
      readU64_err (show (((buf.drop 8).drop 8).drop 8).length < 8 by simp; omega),
      except_bind_err]
  · simp only [unmarshalBinary, readU64_ok_drop h8, except_bind_ok,
      readU64_ok_drop (show 8 ≤ (buf.drop 8).length by simp; omega),
      readU64_ok_drop (show 8 ≤ ((buf.drop 8).drop 8).length by simp; omega),
      readU64_ok_drop (show 8 ≤ (((buf.drop 8).drop 8).drop 8).length by simp; omega),
      readU64_err
        (show ((((buf.drop 8).drop 8).drop 8).drop 8).length < 8 by simp; omega),
      except_bind_err]

/-- Witness for C7's amended theorem: a concrete 4-byte buffer is rejected. -/
theorem decode_short_buffer_errors_witness :
    [1, 2, 3, 4].length < 40 ∧ ∃ e, unmarshalBinary [1, 2, 3, 4] = .error e :=
  ⟨by decide, decode_short_buffer_errors [1, 2, 3, 4] (by decide)⟩

/-- A buffer whose side-node section declares 32 bytes while only one byte
remains: five uint64 fields, a 32-byte commitment, a 32-byte data root, a
side-node count of one, a declared side-node length of 32, then a single
byte 170. -/
def overdeclaredBuf : List Nat :=
  leBytes 8 5 ++ leBytes 8 6 ++ leBytes 8 7 ++ leBytes 8 8 ++ leBytes 8 9 ++
  lenPref (List.replicate 32 1) ++ lenPref (List.replicate 32 2) ++
  leBytes 8 1 ++ leBytes 8 32 ++ [170]

instance {ε α : Type} [DecidableEq ε] [DecidableEq α] :
    DecidableEq (Except ε α) := fun a b => by
  cases a <;> cases b
  case error.error e1 e2 => exact decidable_of_iff (e1 = e2) (by simp)
  case error.ok => exact .isFalse (by simp)
  case ok.error => exact .isFalse (by simp)
  case ok.ok a1 a2 => exact decidable_of_iff (a1 = a2) (by simp)

set_option maxRecDepth 100000 in
/-- Counterexample to C7 as stated: the side-node section of this buffer
declares 32 bytes with only one byte remaining, yet decode returns success
(the reader silently zero-fills the missing 31 bytes) instead of a
FormatError. -/
theorem decode_overdeclared_succeeds :
    unmarshalBinary overdeclaredBuf =
      .ok ⟨5, 6, 7, 8, 9, List.replicate 32 1, List.replicate 32 2,
        [170 :: List.replicate 31 0]⟩ := by
  decide

/-! ## Message tag predicate (src/das/celestia/celestia.go lines 18-22) -/

/-- CelestiaMessageHeaderFlag (celestia.go line 18). -/
def celestiaMessageHeaderFlag : Nat := 0x0c

/-- IsCelestiaMessageHeaderByte (celestia.go lines 20-22): bitwise
containment, true when the flag and the byte share a set bit. -/
def IsCelestiaMessageHeaderByte (header : Nat) : Bool :=
  Nat.blt 0 (Nat.land celestiaMessageHeaderFlag header)

set_option maxRecDepth 100000 in
/-- C9: over all 256 byte values, the message-tag predicate holds exactly
when one of the two designated tag bits of the flag 0x0c (bits 2 and 3) is
set in the byte. -/
theorem isCelestiaMessageHeaderByte_iff_bits :
    ∀ b : Fin 256, IsCelestiaMessageHeaderByte b.val =
      (Nat.testBit b.val 2 || Nat.testBit b.val 3) := by
  decide

/-! ## NMT Engine (src/das/celestia/tree/nmt.go)

The recording hasher (NmtPreimageHasher, nmt.go lines 14-45) is in the
source and is embedded as an explicit state machine.  The tree construction
itself is performed by the external celestiaorg/nmt library, which is not
under src; it is modelled from the spec (§4.2): a binary Merkle tree over
the ordered shares, each node hash prefixed by the min/max namespace of its
subtree, a reserved max-namespace sentinel excluded from range computation,
one callback invocation per computed digest.  Reconstruction (NmtContent,
getNmtChildrenHashes) is in the source and embedded from it verbatim. -/

/-- Namespace identifier size in bytes (nmt.go line 49: NamespaceIDSize 29). -/
def nsSize : Nat := 29

/-- Leaf discriminator byte of the NMT preimage format. -/
def leafTag : Nat := 0

/-- Internal-node discriminator byte of the NMT preimage format. -/
def nodeTag : Nat := 1

/-- The reserved max-namespace sentinel (all 0xff). -/
def sentinelNs : List Nat := List.replicate nsSize 255

/-- State of the recording hasher (nmt.go lines 14-18): the accumulated
hash input and the data buffer captured for the preimage record. -/
structure HState where
  hacc : List Nat
  data : List Nat

/-- Write (nmt.go lines 29-32): the data buffer is REPLACED by the written
bytes while the underlying hash accumulates them. -/
def hWrite (s : HState) (p : List Nat) : HState :=
  ⟨s.hacc ++ p, p⟩

/-- Sum (nmt.go lines 22-27): the digest of the accumulated input, and a
record event pairing that digest with a copy of the data buffer. -/
def hSum (H : List Nat → List Nat) (s : HState) :
    List Nat × (List Nat × List Nat) :=
  (H s.hacc, (H s.hacc, s.data))

/-- Reset (nmt.go lines 35-38): clears the hash state and the data buffer. -/
def hReset (_ : HState) : HState := ⟨[], []⟩

/-- The freshly constructed hasher (nmt.go lines 40-45). -/
def emptyHState : HState := ⟨[], []⟩

/-- Modelled from the spec: the library computes each node digest with one
Reset, one Write of the node's full byte sequence, and one Sum on the
embedded recording hasher. -/
def hashBytesOnce (H : List Nat → List Nat) (st : HState) (p : List Nat) :
    List Nat × HState × (List Nat × List Nat) :=
  let st1 := hWrite (hReset st) p
  let s := hSum H st1
  (s.1, st1, s.2)

/-- Byte-wise lexicographic order on namespace identifiers. -/
def lexLe : List Nat → List Nat → Bool
  | [], _ => true
  | _ :: _, [] => false
  | a :: as, b :: bs => if a < b then true else if b < a then false else lexLe as bs

def nsMinOf (a b : List Nat) : List Nat := if lexLe a b then a else b

def nsMaxOf (a b : List Nat) : List Nat := if lexLe a b then b else a

/-- Modelled from the spec: an internal node's namespace range covers its
children's ranges, with the reserved max-namespace sentinel excluded from
the max computation when a child subtree carries it. -/
def nodeNs (lv rv : List Nat) : List Nat :=
  let lmin := lv.take nsSize
  let lmax := (lv.drop nsSize).take nsSize
  let rmin := rv.take nsSize
  let rmax := (rv.drop nsSize).take nsSize
  nsMinOf lmin rmin ++
    (if lmin = sentinelNs then sentinelNs
     else if rmin = sentinelNs then lmax
     else nsMaxOf lmax rmax)

/-- Split point of an n-leaf subtree: the largest power of two below n,
computed by repeated doubling so that it evaluates by kernel reduction. -/
def splitPoint (n : Nat) : Nat :=
  (List.range n).foldl (fun acc _ => if 2 * acc < n then 2 * acc else acc) 1

theorem splitPoint_foldl_inv (n : Nat) (l : List Nat) :
    ∀ acc, 1 ≤ acc → acc < n →
      1 ≤ l.foldl (fun acc _ => if 2 * acc < n then 2 * acc else acc) acc ∧
      l.foldl (fun acc _ => if 2 * acc < n then 2 * acc else acc) acc < n := by
  induction l with
  | nil => intro acc h1 h2; exact ⟨h1, h2⟩
  | cons a l ih =>
      intro acc h1 h2
      simp only [List.foldl_cons]
      by_cases h : 2 * acc < n
      · rw [if_pos h]
        exact ih (2 * acc) (by omega) h
      · rw [if_neg h]
        exact ih acc h1 h2

theorem splitPoint_pos (n : Nat) (h : 2 ≤ n) : 1 ≤ splitPoint n :=
  (splitPoint_foldl_inv n (List.range n) 1 (Nat.le_refl 1) (by omega)).1

theorem splitPoint_lt (n : Nat) (h : 2 ≤ n) : splitPoint n < n :=
  (splitPoint_foldl_inv n (List.range n) 1 (Nat.le_refl 1) (by omega)).2

/-- Modelled from the spec: binary Merkle tree construction over the ordered
shares, threading the recording hasher state, emitting record events in
hashing order (left subtree, right subtree, then the node itself).  A leaf
node's preimage is the discriminator byte followed by the share; an internal
node's preimage is the discriminator byte followed by both children's
namespaced hashes.  The fuel argument (any bound at least the list length,
the callers pass the length itself) makes the take/drop recursion
structural.  Returns the node's namespaced hash, the final hasher state and
the emitted events. -/
def computeAux (H : List Nat → List Nat) :
    Nat → List (List Nat) → HState → List Nat × HState × List (List Nat × List Nat)
  | _, [], st => ([], st, [])
  | _, [s], st =>
    let r := hashBytesOnce H st (leafTag :: s)
    (s.take nsSize ++ s.take nsSize ++ r.1, r.2.1, [r.2.2])
  | 0, _ :: _ :: _, st => ([], st, [])
  | fuel + 1, s1 :: s2 :: rest, st =>
    let L := computeAux H fuel ((s1 :: s2 :: rest).take (splitPoint (rest.length + 2))) st
    let R := computeAux H fuel ((s1 :: s2 :: rest).drop (splitPoint (rest.length + 2))) L.2.1
    let r := hashBytesOnce H R.2.1 (nodeTag :: (L.1 ++ R.1))
    (nodeNs L.1 R.1 ++ r.1, r.2.1, L.2.2 ++ R.2.2 ++ [r.2.2])

/-- Modelled from the spec: the same tree shape computed without the hasher
state machine — each node's namespaced hash together with the list of full
byte sequences hashed, in hashing order.  Reference point for the recording
claims. -/
def buildSpec (H : List Nat → List Nat) :
    Nat → List (List Nat) → List Nat × List (List Nat)
  | _, [] => ([], [])
  | _, [s] => (s.take nsSize ++ s.take nsSize ++ H (leafTag :: s), [leafTag :: s])
  | 0, _ :: _ :: _ => ([], [])
  | fuel + 1, s1 :: s2 :: rest =>
    let L := buildSpec H fuel ((s1 :: s2 :: rest).take (splitPoint (rest.length + 2)))
    let R := buildSpec H fuel ((s1 :: s2 :: rest).drop (splitPoint (rest.length + 2)))
    (nodeNs L.1 R.1 ++ H (nodeTag :: (L.1 ++ R.1)),
      L.2 ++ R.2 ++ [nodeTag :: (L.1 ++ R.1)])

/-- isComplete (nmt.go lines 65-72): true when no share entry is absent. -/
def isComplete (shares : List (Option (List Nat))) : Bool :=
  shares.all fun s => s.isSome

def unwrapShares (shares : List (Option (List Nat))) : List (List Nat) :=
  shares.map fun s => s.getD []

/-- ComputeNmtRoot (nmt.go lines 47-62): checks completeness before pushing
any share; on success returns the namespaced root and the record events, on
incompleteness the error with no events emitted. -/
def computeNmtRoot (H : List Nat → List Nat)
    (shares : List (Option (List Nat))) :
    Except String (List Nat) × List (List Nat × List Nat) :=
  if isComplete shares then
    let r := computeAux H (unwrapShares shares).length (unwrapShares shares) emptyHState
    (.ok r.1, r.2.2)
  else
    (.error "can not compute root of incomplete row", [])

theorem computeAux_eq_buildSpec (H : List Nat → List Nat) :
    ∀ fuel (l : List (List Nat)), l.length ≤ fuel → ∀ st : HState,
      (computeAux H fuel l st).1 = (buildSpec H fuel l).1 ∧
      (computeAux H fuel l st).2.2 =
        (buildSpec H fuel l).2.map (fun p => (H p, p)) := by
  intro fuel
  induction fuel with
  | zero =>
      intro l hl st
      have hnil : l = [] := List.length_eq_zero.mp (Nat.le_zero.mp hl)
      subst hnil
      simp [computeAux, buildSpec]
  | succ n ih =>
      intro l hl st
      match l with
      | [] => simp [computeAux, buildSpec]
      | [s] =>
          simp [computeAux, buildSpec, hashBytesOnce, hWrite, hReset, hSum,
            List.nil_append]
      | s1 :: s2 :: rest =>
          have hk1 := splitPoint_pos (rest.length + 2) (by omega)
          have hk2 := splitPoint_lt (rest.length + 2) (by omega)
          have hlen : (s1 :: s2 :: rest).length = rest.length + 2 := by
            simp
          have htk : ((s1 :: s2 :: rest).take (splitPoint (rest.length + 2))).length ≤ n := by
            simp only [List.length_take, hlen]
            simp only [List.length_cons] at hl
            omega
          have hdp : ((s1 :: s2 :: rest).drop (splitPoint (rest.length + 2))).length ≤ n := by
            simp only [List.length_drop, hlen]
            simp only [List.length_cons] at hl
            omega
          obtain ⟨ihL1, ihL2⟩ := ih _ htk st
          obtain ⟨ihR1, ihR2⟩ :=
            ih _ hdp (computeAux H n ((s1 :: s2 :: rest).take (splitPoint (rest.length + 2))) st).2.1
          constructor
          · simp only [computeAux, buildSpec, hashBytesOnce, hWrite, hReset, hSum,
              List.nil_append]
            rw [ihL1, ihR1]
          · simp only [computeAux, buildSpec, hashBytesOnce, hWrite, hReset, hSum,
              List.map_append, List.map_cons, List.map_nil, List.nil_append]
            rw [ihL1, ihR1, ihL2, ihR2]

/-- C4: on a complete share list, the record events emitted during root
computation are exactly one per computed digest, in hashing order, each
pairing the digest with the full byte sequence that was hashed — for a leaf
the discriminator byte followed by the share, for an internal node the
discriminator byte followed by both children's namespaced hashes. -/
theorem computeRoot_records_exact_preimages (H : List Nat → List Nat)
    (shares : List (Option (List Nat))) (hc : isComplete shares = true) :
    (computeNmtRoot H shares).2 =
      (buildSpec H (unwrapShares shares).length (unwrapShares shares)).2.map
        (fun p => (H p, p)) := by
  have h := (computeAux_eq_buildSpec H (unwrapShares shares).length
    (unwrapShares shares) (Nat.le_refl _) emptyHState).2
  simp [computeNmtRoot, hc, h]

/-- An executable stand-in hash for concrete witnesses: always 32 bytes. -/
def toyHash (l : List Nat) : List Nat :=
  l.take 31 ++ List.replicate (31 - l.length) 0 ++ [l.length]

/-- Witness for C4 at a concrete complete share list. -/
theorem computeRoot_records_exact_preimages_witness :
    isComplete [some [1, 2], some [3, 4]] = true ∧
    (computeNmtRoot toyHash [some [1, 2], some [3, 4]]).2 =
      (buildSpec toyHash (unwrapShares [some [1, 2], some [3, 4]]).length
        (unwrapShares [some [1, 2], some [3, 4]])).2.map
        (fun p => (toyHash p, p)) :=
  ⟨by decide, computeRoot_records_exact_preimages toyHash _ (by decide)⟩

/-- C10: when any share entry is absent, the completeness check fails before
any share is pushed, the incompleteness error is returned, and no record
event is emitted — the external preimage relation is untouched. -/
theorem computeRoot_incomplete_no_record (H : List Nat → List Nat)
    (shares : List (Option (List Nat))) (h : isComplete shares = false) :
    computeNmtRoot H shares =
      (.error "can not compute root of incomplete row", []) := by
  simp [computeNmtRoot, h]

/-- Witness for C10 at a concrete share list with an absent entry. -/
theorem computeRoot_incomplete_no_record_witness :
    isComplete [some [1, 2], none] = false ∧
    computeNmtRoot toyHash [some [1, 2], none] =
      (.error "can not compute root of incomplete row", []) :=
  ⟨by decide, computeRoot_incomplete_no_record toyHash _ (by decide)⟩

/-! ## NMT reconstruction (nmt.go lines 74-112) -/

/-- A Go slice expression l[lo:hi]. -/
def goSlice (l : List Nat) (lo hi : Nat) : List Nat := (l.take hi).drop lo

/-- common.BytesToHash: left-pads to 32 bytes, or keeps the rightmost 32. -/
def bytesToHash32 (b : List Nat) : List Nat :=
  if 32 ≤ b.length then b.drop (b.length - 32)
  else List.replicate (32 - b.length) 0 ++ b

/-- getNmtChildrenHashes (nmt.go lines 77-83), exactly as written: with
flagLen = 29*2 and sha256Len = 32, the left child is hash[1 :
flagLen+sha256Len] and the right child is hash[flagLen+sha256Len+1:]. -/
def getNmtChildrenHashes (hash : List Nat) : List Nat × List Nat :=
  (goSlice hash 1 (nsSize * 2 + 32), hash.drop (nsSize * 2 + 32 + 1))

/-- NmtContent (nmt.go lines 86-112): recursive descent keyed on the oracle,
with fuel standing in for the source's recursion on an acyclic hash tree.
A node whose min and max namespace coincide is treated as a leaf and yields
the preimage with the discriminator byte stripped; otherwise the preimage is
split into the two children hashes and the recursion concatenates left then
right. -/
def nmtContent (oracle : List Nat → Except String (List Nat)) :
    Nat → List Nat → Except String (List (List Nat))
  | 0, _ => .error "recursion limit"
  | fuel + 1, rootHash =>
    match oracle (bytesToHash32 (rootHash.drop (nsSize * 2))) with
    | .error e => .error e
    | .ok preimage =>
      if goSlice rootHash 0 nsSize = goSlice rootHash nsSize (nsSize * 2) then
        .ok [preimage.drop 1]
      else
        match nmtContent oracle fuel (getNmtChildrenHashes preimage).1 with
        | .error e => .error e
        | .ok leftData =>
          match nmtContent oracle fuel (getNmtChildrenHashes preimage).2 with
          | .error e => .error e
          | .ok rightData => .ok (leftData ++ rightData)

/-- The oracle answering exactly from the recorded digest-preimage pairs. -/
def oracleOfEvents (evs : List (List Nat × List Nat)) (k : List Nat) :
    Except String (List Nat) :=
  match evs.find? (fun e => e.1 == k) with
  | some e => .ok e.2
  | none => .error "missing preimage"

/-- The composite of C2: compute the root while recording, then reconstruct
from the recorded oracle. -/
def roundTripNmt (H : List Nat → List Nat)
    (shares : List (Option (List Nat))) (fuel : Nat) :
    Except String (List (List Nat)) :=
  match computeNmtRoot H shares with
  | (.ok root, evs) => nmtContent (oracleOfEvents evs) fuel root
  | (.error e, _) => .error e

/-- First concrete share: namespace of 29 one-bytes, one payload byte. -/
def nmtShareA : List Nat := List.replicate 29 1 ++ [100]

/-- Second concrete share: namespace of 29 two-bytes, one payload byte. -/
def nmtShareB : List Nat := List.replicate 29 2 ++ [200]

set_option maxRecDepth 100000 in
/-- C2 evaluated at a failing input: for the complete two-share list with
distinct namespaces, reconstruction from the recorded oracle fails with a
missing-preimage error instead of returning the share list — the
getNmtChildrenHashes off-by-one truncates the left child hash to 89 bytes,
so the left lookup key never matches a recorded digest. -/
theorem nmt_roundtrip_fails_on_two_shares :
    roundTripNmt toyHash [some nmtShareA, some nmtShareB] 5 =
      .error "missing preimage" ∧
    roundTripNmt toyHash [some nmtShareA, some nmtShareB] 5 ≠
      .ok [nmtShareA, nmtShareB] := by
  constructor
  · decide
  · decide

set_option maxRecDepth 100000 in
/-- C5 evaluated at a failing input: on the 181-byte internal-node preimage
whose byte at offset i has value i, the source's split yields a left child
of 89 bytes — not the 90 bytes following the discriminator — and the byte
at offset 90 (the last byte of the left child hash) appears in neither
child. -/
theorem getNmtChildrenHashes_off_by_one :
    (getNmtChildrenHashes (List.range 181)).1.length = 89 ∧
    (getNmtChildrenHashes (List.range 181)).1 ≠ goSlice (List.range 181) 1 91 ∧
    90 ∉ (getNmtChildrenHashes (List.range 181)).1 ∧
    90 ∉ (getNmtChildrenHashes (List.range 181)).2 ∧
    (getNmtChildrenHashes (List.range 181)).2 = goSlice (List.range 181) 91 181 := by
  refine ⟨by decide, by decide, by decide, by decide, by decide⟩

/-! ## Confirmation polling and verify orchestration
(src/das/celestia/celestia.go lines 369-440)

External collaborators are modelled as result sequences: the i-th poll of
the bridge nonce or the network head returns the i-th entry.  The unbounded
source loops carry a fuel argument; a none result means the loop is still
polling after that many iterations. -/

/-- Inclusion proof data as used by Verify (celestia.go lines 372-385):
index, total and the aunts of the data-root inclusion proof. -/
structure ProofDataV where
  index : Nat
  total : Nat
  aunts : List (List Nat)
deriving DecidableEq

/-- Modelled from the spec: the verify-phase blob pointer.  Verify
(celestia.go, in src) reads and writes its TupleRootNonce field, but the
file declaring this version of the BlobPointer structure is not under src;
the fields follow spec §3 (height, start, share count, key, numLeaves,
commitment, data root, side nodes, attestation nonce). -/
structure BlobPointerN where
  blockHeight : Nat
  start : Nat
  sharesLength : Nat
  key : Nat
  numLeaves : Nat
  tupleRootNonce : Nat
  txCommitment : List Nat
  dataRoot : List Nat
  sideNodes : List (List Nat)
deriving DecidableEq

/-- The field writes of Verify (celestia.go lines 383-385): key, numLeaves
and sideNodes are taken from the fetched inclusion proof; no other field is
assigned. -/
def updateFromProof (p : BlobPointerN) (pr : ProofDataV) : BlobPointerN :=
  { p with key := pr.index, numLeaves := pr.total, sideNodes := pr.aunts }

/-- The nonce wait loop of Verify (celestia.go lines 398-410): each
iteration polls the bridge nonce; an error returns immediately, a value
strictly greater than the target ends the loop, otherwise it polls again. -/
def nonceWaitFrom (nonces : Nat → Except String Nat) (target : Nat) :
    Nat → Nat → Option (Except String Unit)
  | _, 0 => none
  | i, fuel + 1 =>
    match nonces i with
    | .error e => some (.error e)
    | .ok v => if target < v then some (.ok ()) else nonceWaitFrom nonces target (i + 1) fuel

/-- The proof-writing and waiting phase of Verify (celestia.go lines
372-410): write the proof fields into the pointer, then block until the
external nonce strictly exceeds the pointer's nonce; returns the pointer in
the state used for the final attestation call. -/
def verifyProofAndWait (p : BlobPointerN) (pr : ProofDataV)
    (nonces : Nat → Except String Nat) (fuel : Nat) :
    Option (Except String BlobPointerN) :=
  let p1 := updateFromProof p pr
  match nonceWaitFrom nonces p1.tupleRootNonce 0 fuel with
  | none => none
  | some (.error e) => some (.error e)
  | some (.ok ()) => some (.ok p1)

/-- Verify (celestia.go lines 369-424) as a function of its collaborator
results, returning the Go pair (bool, error): a proof-fetch error returns
(false, the error); a nonce-poll error returns (false, the error); an
attestation-call error returns (false, nil) — exactly as written at lines
418-421 — and an attestation boolean is returned unmodified with nil
error. -/
def verifyModel (proofRes : Except String ProofDataV)
    (nonces : Nat → Except String Nat) (fuel : Nat)
    (attRes : Except String Bool) (p : BlobPointerN) :
    Option (Bool × Option String) :=
  match proofRes with
  | .error e => some (false, some e)
  | .ok pr =>
    match verifyProofAndWait p pr nonces fuel with
    | none => none
    | some (.error e) => some (false, some e)
    | some (.ok _) =>
      match attRes with
      | .error _ => some (false, none)
      | .ok b => some (b, none)

theorem nonceWaitFrom_ok (nonces : Nat → Except String Nat) (target : Nat) :
    ∀ fuel i, nonceWaitFrom nonces target i fuel = some (.ok ()) →
      ∃ j v, nonces j = .ok v ∧ target < v := by
  intro fuel
  induction fuel with
  | zero => intro i h; simp [nonceWaitFrom] at h
  | succ fuel ih =>
      intro i h
      rw [nonceWaitFrom] at h
      rcases hni : nonces i with e | v
      · rw [hni] at h
        simp at h
      · rw [hni] at h
        by_cases htv : target < v
        · exact ⟨i, v, hni, htv⟩
        · simp only [htv, if_false] at h
          exact ih (i + 1) h

/-- Concrete proof data for the verify witnesses. -/
def prC : ProofDataV := ⟨2, 8, [List.replicate 32 3, List.replicate 32 4]⟩

/-- Concrete pointer with attestation nonce 7. -/
def pNonce7 : BlobPointerN :=
  ⟨11, 0, 4, 0, 0, 7, List.replicate 32 1, List.replicate 32 2, []⟩

/-- Concrete pointer identical to pNonce7 except the attestation nonce. -/
def pNonce8 : BlobPointerN :=
  ⟨11, 0, 4, 0, 0, 8, List.replicate 32 1, List.replicate 32 2, []⟩

/-- Counterexample to C6 as stated: the attestation nonce is not among the
fields Verify writes from the fetched inclusion proof — two pointers that
differ only in their nonce still differ after the proof fields are written
from the same proof, and each keeps its prior nonce unchanged. -/
theorem verify_does_not_write_nonce :
    (updateFromProof pNonce7 prC).tupleRootNonce = 7 ∧
    (updateFromProof pNonce8 prC).tupleRootNonce = 8 ∧
    (updateFromProof pNonce7 prC).tupleRootNonce ≠
      (updateFromProof pNonce8 prC).tupleRootNonce := by
  refine ⟨by decide, by decide, by decide⟩

/-- C6 (amended): on the success path Verify writes exactly key, numLeaves
and the side-node list from the fetched inclusion proof, leaves the
attestation nonce unchanged, and blocks until an externally reported nonce
is strictly greater than the pointer's pre-existing nonce. -/
theorem verify_updates_proof_fields_and_waits (p : BlobPointerN)
    (pr : ProofDataV) (nonces : Nat → Except String Nat) (fuel : Nat)
    (q : BlobPointerN)
    (h : verifyProofAndWait p pr nonces fuel = some (.ok q)) :
    q.key = pr.index ∧ q.numLeaves = pr.total ∧ q.sideNodes = pr.aunts ∧
    q.tupleRootNonce = p.tupleRootNonce ∧
    ∃ i v, nonces i = .ok v ∧ p.tupleRootNonce < v := by
  rw [verifyProofAndWait] at h
  have hnonce : (updateFromProof p pr).tupleRootNonce = p.tupleRootNonce := by
    simp [updateFromProof]
  rcases hw : nonceWaitFrom nonces (updateFromProof p pr).tupleRootNonce 0 fuel with _ | r
  · rw [hw] at h
    simp at h
  · rcases r with e | u
    · rw [hw] at h
      simp at h
    · rw [hw] at h
      simp only [Option.some.injEq, Except.ok.injEq] at h
      subst h
      refine ⟨by simp [updateFromProof], by simp [updateFromProof],
        by simp [updateFromProof], hnonce, ?_⟩
      have := nonceWaitFrom_ok nonces (updateFromProof p pr).tupleRootNonce fuel 0 (by
        cases u
        exact hw)
      rw [hnonce] at this
      exact this

/-- Witness for C6's amended theorem at concrete inputs: nonce polls report
10, 11, ..., the pointer's nonce is 7, the loop is satisfied on the first
poll. -/
theorem verify_updates_proof_fields_and_waits_witness :
    (updateFromProof pNonce7 prC).key = prC.index ∧
    (updateFromProof pNonce7 prC).numLeaves = prC.total ∧
    (updateFromProof pNonce7 prC).sideNodes = prC.aunts ∧
    (updateFromProof pNonce7 prC).tupleRootNonce = pNonce7.tupleRootNonce ∧
    ∃ i v, (fun j => (.ok (j + 10) : Except String Nat)) i = .ok v ∧
      pNonce7.tupleRootNonce < v :=
  verify_updates_proof_fields_and_waits pNonce7 prC
    (fun j => .ok (j + 10)) 1 (updateFromProof pNonce7 prC) (by decide)

/-- C1 evaluated at a failing input: when the bridge attestation call
errors, Verify returns the pair (false, nil) — the error is logged and
swallowed rather than propagated (celestia.go line 420) — while an ok
boolean from the collaborator is returned unmodified. -/
theorem verify_swallows_attestation_error :
    verifyModel (.ok prC) (fun _ => .ok 10) 1
      (.error "attestation reverted") pNonce7 = some (false, none) ∧
    verifyModel (.ok prC) (fun _ => .ok 10) 1 (.ok true) pNonce7 =
      some (true, none) ∧
    verifyModel (.ok prC) (fun _ => .ok 10) 1 (.ok false) pNonce7 =
      some (false, none) := by
  refine ⟨by decide, by decide, by decide⟩

/-- WaitForHeight's loop (celestia.go lines 426-440): each iteration reads
the local head; an error returns immediately, a head at or above the target
ends the loop with success. -/
def waitHeightFrom (heads : Nat → Except String Nat) (target : Nat) :
    Nat → Nat → Option (Except String Unit)
  | _, 0 => none
  | i, fuel + 1 =>
    match heads i with
    | .error e => some (.error e)
    | .ok v => if target ≤ v then some (.ok ()) else waitHeightFrom heads target (i + 1) fuel

/-- WaitForHeight (celestia.go lines 426-440), polling from the first
report. -/
def waitForHeight (heads : Nat → Except String Nat) (target fuel : Nat) :
    Option (Except String Unit) :=
  waitHeightFrom heads target 0 fuel

theorem waitHeightFrom_ok_sound (heads : Nat → Except String Nat)
    (target : Nat) :
    ∀ fuel i, waitHeightFrom heads target i fuel = some (.ok ()) →
      ∃ m, i ≤ m ∧ (∀ j, i ≤ j → j < m → ∃ v, heads j = .ok v ∧ v < target) ∧
        ∃ v, heads m = .ok v ∧ target ≤ v := by
  intro fuel
  induction fuel with
  | zero => intro i h; simp [waitHeightFrom] at h
  | succ fuel ih =>
      intro i h
      rw [waitHeightFrom] at h
      rcases hhi : heads i with e | v
      · rw [hhi] at h
        simp at h
      · rw [hhi] at h
        by_cases htv : target ≤ v
        · exact ⟨i, Nat.le_refl i, fun j hj1 hj2 => absurd (lt_of_le_of_lt hj1 hj2)
            (lt_irrefl i), v, hhi, htv⟩
        · simp only [htv, if_false] at h
          obtain ⟨m, hm1, hm2, hm3⟩ := ih (i + 1) h
          refine ⟨m, by omega, ?_, hm3⟩
          intro j hj1 hj2
          rcases Nat.eq_or_lt_of_le hj1 with hji | hji
          · exact ⟨v, hji ▸ hhi, by omega⟩
          · exact hm2 j hji hj2

theorem waitHeightFrom_live (heads : Nat → Except String Nat) (target : Nat) :
    ∀ fuel i m, i ≤ m → m - i < fuel →
      (∀ j, i ≤ j → j < m → ∃ v, heads j = .ok v ∧ v < target) →
      (∃ v, heads m = .ok v ∧ target ≤ v) →
      waitHeightFrom heads target i fuel = some (.ok ()) := by
  intro fuel
  induction fuel with
  | zero => intro i m h1 h2; omega
  | succ fuel ih =>
      intro i m h1 h2 hbelow hm
      rw [waitHeightFrom]
      rcases Nat.eq_or_lt_of_le h1 with him | him
      · subst him
        obtain ⟨v, hv1, hv2⟩ := hm
        rw [hv1]
        simp [hv2]
      · obtain ⟨v, hv1, hv2⟩ := hbelow i (Nat.le_refl i) him
        rw [hv1]
        have hnle : ¬ target ≤ v := by omega
        simp only [hnle, if_false]
        exact ih (i + 1) m (by omega) (by omega)
          (fun j hj1 hj2 => hbelow j (by omega) hj2) hm

theorem waitHeightFrom_err (heads : Nat → Except String Nat) (target : Nat) :
    ∀ fuel i m e, i ≤ m → m - i < fuel →
      (∀ j, i ≤ j → j < m → ∃ v, heads j = .ok v ∧ v < target) →
      heads m = .error e →
      waitHeightFrom heads target i fuel = some (.error e) := by
  intro fuel
  induction fuel with
  | zero => intro i m e h1 h2; omega
  | succ fuel ih =>
      intro i m e h1 h2 hbelow hm
      rw [waitHeightFrom]
      rcases Nat.eq_or_lt_of_le h1 with him | him
      · subst him
        rw [hm]
      · obtain ⟨v, hv1, hv2⟩ := hbelow i (Nat.le_refl i) him
        rw [hv1]
        have hnle : ¬ target ≤ v := by omega
        simp only [hnle, if_false]
        exact ih (i + 1) m e (by omega) (by omega)
          (fun j hj1 hj2 => hbelow j (by omega) hj2) hm

/-- C8: waitForHeight (i) returns success only when some poll observed a
head at or above the target and every earlier poll observed a head below
it, (ii) returns success on the very iteration of the first such
observation — fuel beyond that iteration suffices — and (iii) propagates a
read error on the iteration it occurs, with no further polling needed. -/
theorem waitForHeight_behaviour (heads : Nat → Except String Nat)
    (target : Nat) :
    (∀ fuel, waitForHeight heads target fuel = some (.ok ()) →
      ∃ m, (∀ j, j < m → ∃ v, heads j = .ok v ∧ v < target) ∧
        ∃ v, heads m = .ok v ∧ target ≤ v) ∧
    (∀ m fuel, m < fuel →
      (∀ j, j < m → ∃ v, heads j = .ok v ∧ v < target) →
      (∃ v, heads m = .ok v ∧ target ≤ v) →
      waitForHeight heads target fuel = some (.ok ())) ∧
    (∀ m e fuel, m < fuel →
      (∀ j, j < m → ∃ v, heads j = .ok v ∧ v < target) →
      heads m = .error e →
      waitForHeight heads target fuel = some (.error e)) := by
  refine ⟨?_, ?_, ?_⟩
  · intro fuel h
    obtain ⟨m, _, hm2, hm3⟩ := waitHeightFrom_ok_sound heads target fuel 0 h
    exact ⟨m, fun j hj => hm2 j (Nat.zero_le j) hj, hm3⟩
  · intro m fuel hfuel hbelow hm
    exact waitHeightFrom_live heads target fuel 0 m (Nat.zero_le m) (by omega)
      (fun j _ hj2 => hbelow j hj2) hm
  · intro m e fuel hfuel hbelow hm
    exact waitHeightFrom_err heads target fuel 0 m e (Nat.zero_le m) (by omega)
      (fun j _ hj2 => hbelow j hj2) hm

/-- Witness for C8 at concrete inputs: heads report 4, 5, 6, ...; target 5
is first reached on poll 1, and the loop succeeds with fuel 2. -/
theorem waitForHeight_behaviour_witness :
    waitForHeight (fun i => .ok (4 + i)) 5 2 = some (.ok ()) :=
  (waitForHeight_behaviour (fun i => .ok (4 + i)) 5).2.1 1 2 (by omega)
    (fun j hj => ⟨4 + j, rfl, by omega⟩) ⟨5, rfl, by omega⟩

end CelestiaDA
